import Mathlib

/-!
# pretty_view: a shallow embedding of `src/pretty_view/pretty_view.hpp`

The header classifies a C++ type with three concepts (`is_str_like`,
`is_col_like`, `is_tup_like`) and renders a collection or tuple, recursively,
to an output stream with six display tokens.

Embedding choices.

* A C++ type is seen by the header only through four compile-time facts; they
  are the fields of `TypeCaps`.
* A run-time value is a `Value`: the facts of its static type, the text that
  `os << x` produces for it, the elements met by the traversal
  `std::begin .. std::end`, and the elements reached by `std::get<I>`.
* The output stream is the text written to it so far (a `String`); writing
  appends.
* A template instantiation whose `requires` clause fails is a rejected program;
  the rendering functions return `none` for it and `some sink` otherwise.
  Rejection is observed on the elements a value holds: the element type of a
  collection without elements is not inspected.
* Every value carries the facts of its own static type. In C++ the elements of
  one collection share one type; the theorems hold for all values, those
  included.
* An element that is written directly (`os << *it`) is assumed to have a stream
  insertion operator; its output is the `text` of the value. Failure states of
  the stream are not modelled.
* Iterator positions and tuple indices are natural numbers, `begin` being 0.
-/

namespace rmsn

/-! ## Type classifier (lines 12-31) -/

/-- The compile-time facts about a type `base_t<T>` that the three concepts read. -/
structure TypeCaps where
  /-- Fact `std::is_convertible_v<base_t<T>, std::string>`. -/
  conv_string : Bool
  /-- Fact `std::is_convertible_v<base_t<T>, std::string_view>`. -/
  conv_string_view : Bool
  /-- Both `std::begin(t)` and `std::end(t)` are well-formed. -/
  has_begin_end : Bool
  /-- The member `std::tuple_size<base_t<T>>::value` exists. -/
  has_tuple_size : Bool
deriving DecidableEq, Repr

/-- Concept `is_str_like` (line 18). -/
def is_str_like (c : TypeCaps) : Bool :=
  c.conv_string || c.conv_string_view

/-- Concept `is_col_like` (lines 22-25): iterable and not string-like. -/
def is_col_like (c : TypeCaps) : Bool :=
  c.has_begin_end && !is_str_like c

/-- Concept `is_tup_like` (lines 29-31). -/
def is_tup_like (c : TypeCaps) : Bool :=
  c.has_tuple_size

/-- The `requires` clause on `struct pretty_view` (line 35). -/
def pretty_view_requires (c : TypeCaps) : Bool :=
  (is_col_like c || is_tup_like c) && !is_str_like c

/-- The `requires` clause on `operator<<` (line 43). -/
def operator_shl_requires (c : TypeCaps) : Bool :=
  (is_col_like c || is_tup_like c) && !is_str_like c

/-! ## Values -/

/-- A run-time value together with the facts of its static type.
`text` is what `os << x` writes for the value itself, `range` the elements
between `std::begin` and `std::end` in traversal order, `fields` the elements
`std::get<0>`, `std::get<1>`, ... up to `std::tuple_size`. -/
inductive Value where
  | mk (caps : TypeCaps) (text : String) (range : List Value) (fields : List Value)

/-- Facts of the static type of a value. -/
def Value.caps : Value → TypeCaps
  | .mk c _ _ _ => c

/-- Default textual form of a value. -/
def Value.text : Value → String
  | .mk _ t _ _ => t

/-- Elements in traversal order. -/
def Value.range : Value → List Value
  | .mk _ _ r _ => r

/-- Elements in positional order. -/
def Value.fields : Value → List Value
  | .mk _ _ _ f => f

/-! ## The proxy and its tokens (lines 34-39) -/

/-- The six display tokens carried by a `pretty_view`, in declaration order. -/
structure Tokens where
  col_pref : String
  col_delim : String
  col_post : String
  tup_pref : String
  tup_delim : String
  tup_post : String
deriving DecidableEq, Repr

/-- The proxy `struct pretty_view` with its default member initialisers (line 38). -/
structure pretty_view where
  t : Value
  col_pref : String := "["
  col_delim : String := ", "
  col_post : String := "]"
  tup_pref : String := "\x7b"
  tup_delim : String := ", "
  tup_post : String := "\x7d"

/-- The token members of a proxy. -/
def pretty_view.tokens (pv : pretty_view) : Tokens :=
  ⟨pv.col_pref, pv.col_delim, pv.col_post, pv.tup_pref, pv.tup_delim, pv.tup_post⟩

/-- Aggregate initialisation of a proxy with designated initialisers: a token
that is given an initialiser takes it, a token that is given none keeps its
default member initialiser. -/
def pretty_view.init (t : Value)
    (col_pref col_delim col_post tup_pref tup_delim tup_post : Option String) : pretty_view :=
  let pv0 : pretty_view := { t := t }
  let pv1 := match col_pref with
    | some s => { pv0 with col_pref := s }
    | none => pv0
  let pv2 := match col_delim with
    | some s => { pv1 with col_delim := s }
    | none => pv1
  let pv3 := match col_post with
    | some s => { pv2 with col_post := s }
    | none => pv2
  let pv4 := match tup_pref with
    | some s => { pv3 with tup_pref := s }
    | none => pv3
  let pv5 := match tup_delim with
    | some s => { pv4 with tup_delim := s }
    | none => pv4
  match tup_post with
  | some s => { pv5 with tup_post := s }
  | none => pv5

/-! ## The renderer (lines 42-86) -/

mutual
/-- Body of `operator<<` for a proxy over value `v` with tokens `pv`; `os` is
the text already in the stream, the result is the text in the stream on return. -/
def shl (pv : Tokens) : Value → String → Option String
  | .mk caps _ range fields, os =>
    if pretty_view_requires caps && operator_shl_requires caps then
      if is_col_like caps then
        match col_loop pv range 0 (os ++ pv.col_pref) with
        | none => none
        | some os1 => some (os1 ++ pv.col_post)
      else if is_tup_like caps then
        match tup_fold pv fields 0 (os ++ pv.tup_pref) with
        | none => none
        | some os1 => some (os1 ++ pv.tup_post)
      else some os
    else none
/-- The loop of lines 49-58 from iterator position `it` (`begin` is position 0)
over the elements that remain before `end`. -/
def col_loop (pv : Tokens) : List Value → Nat → String → Option String
  | [], _, os => some os
  | e :: rest, it, os =>
    let os1 := if it ≠ 0 then os ++ pv.col_delim else os
    let r :=
      if is_col_like e.caps || is_tup_like e.caps then
        shl ⟨pv.col_pref, pv.col_delim, pv.col_post, pv.tup_pref, pv.tup_delim, pv.tup_post⟩ e os1
      else some (os1 ++ e.text)
    match r with
    | none => none
    | some os2 => col_loop pv rest (it + 1) os2
/-- The fold of lines 65-80 over the index sequence from index `I` on. -/
def tup_fold (pv : Tokens) : List Value → Nat → String → Option String
  | [], _, os => some os
  | e :: rest, I, os =>
    let os1 := if I = 0 then os else os ++ pv.tup_delim
    let r :=
      if is_col_like e.caps || is_tup_like e.caps then
        shl ⟨pv.col_pref, pv.col_delim, pv.col_post, pv.tup_pref, pv.tup_delim, pv.tup_post⟩ e os1
      else some (os1 ++ e.text)
    match r with
    | none => none
    | some os2 => tup_fold pv rest (I + 1) os2
end

/-- Writing a proxy to a stream: `os << pv`. -/
def operator_shl (os : String) (pv : pretty_view) : Option String :=
  shl pv.tokens pv.t os

/-- Rendering of one element (lines 52-57 and 70-75): a proxy with the same six
tokens when the element is collection-like or tuple-like, the element's default
text otherwise. -/
def render_elem (pv : Tokens) (e : Value) (os : String) : Option String :=
  if is_col_like e.caps || is_tup_like e.caps then
    shl ⟨pv.col_pref, pv.col_delim, pv.col_post, pv.tup_pref, pv.tup_delim, pv.tup_post⟩ e os
  else some (os ++ e.text)

/-! ## Reference layout and acceptance -/

mutual
/-- Layout in the words of the specification: the open token, the elements
separated by the delimiter, the close token, with one and the same token set
at every nesting level; a value that is neither collection-like nor tuple-like
is its default text. -/
def layout (pv : Tokens) : Value → String
  | .mk caps text range fields =>
    if is_col_like caps then
      pv.col_pref ++ String.intercalate pv.col_delim (layout_list pv range) ++ pv.col_post
    else if is_tup_like caps then
      pv.tup_pref ++ String.intercalate pv.tup_delim (layout_list pv fields) ++ pv.tup_post
    else text
/-- Layouts of the elements of a list, in order. -/
def layout_list (pv : Tokens) : List Value → List String
  | [] => []
  | e :: rest => layout pv e :: layout_list pv rest
end

mutual
/-- Every proxy instantiated while rendering the value satisfies both
`requires` clauses. -/
def accepted : Value → Bool
  | .mk caps _ range fields =>
    (pretty_view_requires caps && operator_shl_requires caps) &&
      (if is_col_like caps then accepted_elems range
       else if is_tup_like caps then accepted_elems fields
       else true)
/-- Every element of the list that is rendered through a proxy is accepted. -/
def accepted_elems : List Value → Bool
  | [] => true
  | e :: rest =>
    (if is_col_like e.caps || is_tup_like e.caps then accepted e else true) &&
      accepted_elems rest
end

/-- Text written by a separator loop that starts at position `it`: every
rendering is preceded by the delimiter except the one at position 0. -/
def sep_fold (d : String) : List String → Nat → String → String
  | [], _, os => os
  | r :: rs, it, os => sep_fold d rs (it + 1) ((if it ≠ 0 then os ++ d else os) ++ r)

/-- Number of positions of `s` at which `pat` starts. -/
def count_occ (pat : List Char) : List Char → Nat
  | [] => if pat.isPrefixOf [] then 1 else 0
  | c :: s => (if pat.isPrefixOf (c :: s) then 1 else 0) + count_occ pat s

/-- Number of occurrences of the text `pat` in the text `s`. -/
def occurrences (pat s : String) : Nat :=
  count_occ pat.data s.data

/-- Characters written after the first rendering by a separator loop: each
further rendering preceded by the delimiter. -/
def sep_tail (d : String) : List String → List Char
  | [] => []
  | r :: rs => d.data ++ (r.data ++ sep_tail d rs)

/-! ## Sample types and values -/

/-- Facts of `int`: none of the three concepts holds. -/
def int_caps : TypeCaps := ⟨false, false, false, false⟩

/-- Facts of `std::string`: convertible to text and iterable. -/
def string_caps : TypeCaps := ⟨true, true, true, false⟩

/-- Facts of `std::vector<E>`: iterable only. -/
def vector_caps : TypeCaps := ⟨false, false, true, false⟩

/-- Facts of `std::tuple<Es...>`: a `tuple_size` only. -/
def tuple_caps : TypeCaps := ⟨false, false, false, true⟩

/-- Facts of `std::array<E, N>`: iterable and with a `tuple_size`. -/
def array_caps : TypeCaps := ⟨false, false, true, true⟩

/-- Facts of a class with `operator std::string()` and a `std::tuple_size`
specialisation: string-like and tuple-like, not iterable. -/
def named_pair_caps : TypeCaps := ⟨true, false, false, true⟩

/-- An `int` whose decimal text is `s`. -/
def int_val (s : String) : Value := .mk int_caps s [] []

/-- A `char` printed as `c`. -/
def char_val (c : Char) : Value := .mk int_caps (String.singleton c) [] []

/-- A `std::string` holding `s`: printed as `s`, traversed character by character. -/
def string_val (s : String) : Value := .mk string_caps s (s.data.map char_val) []

/-- A `std::vector` of the given elements. -/
def vector_val (es : List Value) : Value := .mk vector_caps "" es []

/-- A `std::tuple` of the given elements. -/
def tuple_val (es : List Value) : Value := .mk tuple_caps "" [] es

/-- A `std::array` of the given elements: traversal and positions agree. -/
def array_val (es : List Value) : Value := .mk array_caps "" es es

/-- A value of the class of `named_pair_caps`, printed as `s`, with two
positional members. -/
def named_pair_val (s : String) (a b : Value) : Value := .mk named_pair_caps s [] [a, b]

/-- A `std::tuple` of a tuple of 1, 2 and of 3. -/
def nested_tuple_val : Value :=
  tuple_val [tuple_val [int_val "1", int_val "2"], int_val "3"]

/-- The one-element sequence of strings holding `a, b`. -/
def one_string_val : Value := vector_val [string_val "a, b"]

/-- The two-element sequence of strings holding `a` and `b`. -/
def two_strings_val : Value := vector_val [string_val "a", string_val "b"]

mutual
/-- No value rendered by the tuple branch occurs in the value, at any nesting
level. -/
def no_tuple : Value → Bool
  | .mk caps _ range _ =>
    if is_col_like caps then no_tuple_elems range
    else if is_tup_like caps then false
    else true
/-- No element of the list holds a tuple. -/
def no_tuple_elems : List Value → Bool
  | [] => true
  | e :: rest => no_tuple e && no_tuple_elems rest
end

mutual
/-- No value rendered by the collection branch occurs in the value, at any
nesting level. -/
def no_collection : Value → Bool
  | .mk caps _ _ fields =>
    if is_col_like caps then false
    else if is_tup_like caps then no_collection_elems fields
    else true
/-- No element of the list holds a collection. -/
def no_collection_elems : List Value → Bool
  | [] => true
  | e :: rest => no_collection e && no_collection_elems rest
end

/-! ## The renderer with a bound on the depth of nested calls -/

/-- Outcome of a rendering whose nested `operator<<` calls are counted:
the bound on the call depth was exceeded, or the rendering ran to its end with
the result the unbounded renderer gives. -/
inductive Bounded where
  | exceeded
  | finished (r : Option String)
deriving DecidableEq, Repr

/-- The loop of lines 49-58, the nested proxy calls being made through `call`. -/
def col_loop_bounded (call : Tokens → Value → String → Bounded) (pv : Tokens) :
    List Value → Nat → String → Bounded
  | [], _, os => .finished (some os)
  | e :: rest, it, os =>
    let os1 := if it ≠ 0 then os ++ pv.col_delim else os
    let r :=
      if is_col_like e.caps || is_tup_like e.caps then
        call ⟨pv.col_pref, pv.col_delim, pv.col_post, pv.tup_pref, pv.tup_delim, pv.tup_post⟩ e os1
      else .finished (some (os1 ++ e.text))
    match r with
    | .exceeded => .exceeded
    | .finished none => .finished none
    | .finished (some os2) => col_loop_bounded call pv rest (it + 1) os2

/-- The fold of lines 65-80, the nested proxy calls being made through `call`. -/
def tup_fold_bounded (call : Tokens → Value → String → Bounded) (pv : Tokens) :
    List Value → Nat → String → Bounded
  | [], _, os => .finished (some os)
  | e :: rest, I, os =>
    let os1 := if I = 0 then os else os ++ pv.tup_delim
    let r :=
      if is_col_like e.caps || is_tup_like e.caps then
        call ⟨pv.col_pref, pv.col_delim, pv.col_post, pv.tup_pref, pv.tup_delim, pv.tup_post⟩ e os1
      else .finished (some (os1 ++ e.text))
    match r with
    | .exceeded => .exceeded
    | .finished none => .finished none
    | .finished (some os2) => tup_fold_bounded call pv rest (I + 1) os2

/-- Body of `operator<<` run with at most `n` calls of `operator<<` on the call
stack. A proxy whose `requires` clause fails is rejected before any call is
made; entering the body takes one level. -/
def shl_bounded : Nat → Tokens → Value → String → Bounded
  | 0, _, v, _ =>
    if pretty_view_requires v.caps && operator_shl_requires v.caps then .exceeded
    else .finished none
  | n + 1, pv, v, os =>
    if pretty_view_requires v.caps && operator_shl_requires v.caps then
      if is_col_like v.caps then
        match col_loop_bounded (shl_bounded n) pv v.range 0 (os ++ pv.col_pref) with
        | .exceeded => .exceeded
        | .finished none => .finished none
        | .finished (some os1) => .finished (some (os1 ++ pv.col_post))
      else if is_tup_like v.caps then
        match tup_fold_bounded (shl_bounded n) pv v.fields 0 (os ++ pv.tup_pref) with
        | .exceeded => .exceeded
        | .finished none => .finished none
        | .finished (some os1) => .finished (some (os1 ++ pv.tup_post))
      else .finished (some os)
    else .finished none

mutual
/-- Nesting depth of a value: a scalar leaf has depth 0, a collection or tuple
one more than the deepest of its elements. -/
def depth : Value → Nat
  | .mk caps _ range fields =>
    if is_col_like caps then 1 + depth_elems range
    else if is_tup_like caps then 1 + depth_elems fields
    else 0
/-- Largest nesting depth among the elements of a list. -/
def depth_elems : List Value → Nat
  | [] => 0
  | e :: rest => max (depth e) (depth_elems rest)
end

/-! ## Bracket structure of a text -/

/-- The default token set of line 38. -/
def default_token_set : Tokens := ⟨"[", ", ", "]", "\x7b", ", ", "\x7d"⟩

/-- Opening bracket or brace. -/
def is_open (c : Char) : Bool := c == '[' || c == '\x7b'

/-- Closing bracket or brace. -/
def is_close (c : Char) : Bool := c == ']' || c == '\x7d'

/-- The closing character that matches an opening one. -/
def closer (c : Char) : Char := if c == '[' then ']' else '\x7d'

/-- Scan of a text with the stack of the brackets that are open: an opening
character is pushed, a closing one must match the top of the stack and pops it,
and at the end of the text the stack must be empty. -/
def well_nested : List Char → List Char → Bool
  | [], st => st.isEmpty
  | c :: s, st =>
    if is_open c then well_nested s (c :: st)
    else if is_close c then
      match st with
      | [] => false
      | o :: st1 => c == closer o && well_nested s st1
    else well_nested s st

/-- Largest number of brackets open at once while scanning a text, starting
with `cur` brackets open. -/
def max_depth : List Char → Nat → Nat
  | [], cur => cur
  | c :: s, cur =>
    if is_open c then max_depth s (cur + 1)
    else if is_close c then max cur (max_depth s (cur - 1))
    else max_depth s cur

/-- The text holds none of the four bracket characters. -/
def bracket_free (s : List Char) : Bool :=
  s.all (fun c => !(is_open c || is_close c))

/-- What scanning a balanced piece of text of bracket depth `k` does: the stack
is found as it was, and the depth reached is `k` above the starting one. -/
def scans_as (t : List Char) (k : Nat) : Prop :=
  ∀ s : List Char,
    (∀ st, well_nested (t ++ s) st = well_nested s st) ∧
      (∀ cur, max_depth (t ++ s) cur = max (cur + k) (max_depth s cur))

mutual
/-- Every scalar leaf of the value has a default text without bracket
characters. -/
def clean : Value → Bool
  | .mk caps text range fields =>
    if is_col_like caps then clean_elems range
    else if is_tup_like caps then clean_elems fields
    else bracket_free text.data
/-- Every element of the list is clean. -/
def clean_elems : List Value → Bool
  | [] => true
  | e :: rest => clean e && clean_elems rest
end

end rmsn

namespace rmsn

/-! ## Separator loops and joined text -/

theorem sep_fold_succ (d : String) (rs : List String) (it : Nat) (os : String) :
    sep_fold d rs (it + 1) os = rs.foldl (fun acc r => acc ++ d ++ r) os := by
  induction rs generalizing it os with
  | nil => rfl
  | cons r rs ih => simp [sep_fold, ih]

theorem foldl_sep_append (d : String) (rs : List String) (p a : String) :
    rs.foldl (fun acc r => acc ++ d ++ r) (p ++ a) =
      p ++ rs.foldl (fun acc r => acc ++ d ++ r) a := by
  induction rs generalizing a with
  | nil => rfl
  | cons r rs ih =>
    simp only [List.foldl_cons]
    rw [String.append_assoc, String.append_assoc, ← String.append_assoc a, ih]

theorem intercalate_go_eq (d : String) (rs : List String) (a : String) :
    String.intercalate.go a d rs = rs.foldl (fun acc r => acc ++ d ++ r) a := by
  induction rs generalizing a with
  | nil => rfl
  | cons r rs ih => simp [String.intercalate.go, ih]

theorem sep_fold_zero (d : String) (rs : List String) (os : String) :
    sep_fold d rs 0 os = os ++ String.intercalate d rs := by
  cases rs with
  | nil => simp [sep_fold, String.intercalate]
  | cons r rs =>
    simp only [sep_fold, String.intercalate, intercalate_go_eq, sep_fold_succ, foldl_sep_append]
    simp

/-! ## The renderer computes the reference layout -/

theorem layout_leaf (pv : Tokens) (e : Value)
    (h : (is_col_like e.caps || is_tup_like e.caps) = false) : layout pv e = e.text := by
  cases e with
  | mk caps text range fields =>
    simp only [Value.caps, Bool.or_eq_false_iff] at h
    simp [layout, h.1, h.2, Value.text]

mutual
theorem shl_eq (pv : Tokens) : ∀ (v : Value) (os : String),
    shl pv v os = if accepted v then some (os ++ layout pv v) else none
  | .mk caps text range fields, os => by
    have h1 := col_loop_eq pv range 0 (os ++ pv.col_pref)
    have h2 := tup_fold_eq pv fields 0 (os ++ pv.tup_pref)
    rw [shl, accepted, layout, h1, h2]
    by_cases hr : (pretty_view_requires caps && operator_shl_requires caps) = true
    · by_cases hc : is_col_like caps = true
      · by_cases ha : accepted_elems range = true
        · simp [hr, hc, ha, sep_fold_zero, String.append_assoc]
        · simp [hr, hc, ha]
      · by_cases ht : is_tup_like caps = true
        · by_cases ha : accepted_elems fields = true
          · simp [hr, hc, ht, ha, sep_fold_zero, String.append_assoc]
          · simp [hr, hc, ht, ha]
        · exfalso
          simp [pretty_view_requires, operator_shl_requires, hc, ht] at hr
    · simp [hr]
theorem col_loop_eq (pv : Tokens) : ∀ (l : List Value) (it : Nat) (os : String),
    col_loop pv l it os =
      if accepted_elems l then some (sep_fold pv.col_delim (layout_list pv l) it os) else none
  | [], it, os => by simp [col_loop, accepted_elems, layout_list, sep_fold]
  | e :: rest, it, os => by
    have h1 := fun os1 => shl_eq pv e os1
    have h2 := fun it1 os2 => col_loop_eq pv rest it1 os2
    rw [col_loop, accepted_elems, layout_list, sep_fold]
    by_cases hd : (is_col_like e.caps || is_tup_like e.caps) = true
    · by_cases ha : accepted e = true
      · simp [hd, ha, h1, h2]
      · simp [hd, ha, h1]
    · simp only [Bool.not_eq_true] at hd
      simp [hd, h2, layout_leaf pv e hd]
theorem tup_fold_eq (pv : Tokens) : ∀ (l : List Value) (I : Nat) (os : String),
    tup_fold pv l I os =
      if accepted_elems l then some (sep_fold pv.tup_delim (layout_list pv l) I os) else none
  | [], I, os => by simp [tup_fold, accepted_elems, layout_list, sep_fold]
  | e :: rest, I, os => by
    have h1 := fun os1 => shl_eq pv e os1
    have h2 := fun it1 os2 => tup_fold_eq pv rest it1 os2
    rw [tup_fold, accepted_elems, layout_list, sep_fold]
    by_cases hd : (is_col_like e.caps || is_tup_like e.caps) = true
    · by_cases ha : accepted e = true
      · simp [hd, ha, h1, h2]
      · simp [hd, ha, h1]
    · simp only [Bool.not_eq_true] at hd
      simp [hd, h2, layout_leaf pv e hd]
end

theorem operator_shl_eq (pv : pretty_view) (os : String) :
    operator_shl os pv =
      if accepted pv.t then some (os ++ layout pv.tokens pv.t) else none :=
  shl_eq pv.tokens pv.t os

theorem elem_eq (pv : pretty_view) (e : Value) :
    (if is_col_like e.caps || is_tup_like e.caps then operator_shl "" { pv with t := e }
      else some e.text) =
      if (if is_col_like e.caps || is_tup_like e.caps then accepted e else true) then
        some (layout pv.tokens e) else none := by
  by_cases hd : (is_col_like e.caps || is_tup_like e.caps) = true
  · rw [if_pos hd, if_pos hd, operator_shl_eq]
    simp [pretty_view.tokens]
  · simp only [Bool.not_eq_true] at hd
    simp [hd, layout_leaf pv.tokens e hd]

theorem mapM_elem_eq (pv : pretty_view) (l : List Value) :
    l.mapM (fun e =>
        if is_col_like e.caps || is_tup_like e.caps then operator_shl "" { pv with t := e }
        else some e.text) =
      if accepted_elems l then some (layout_list pv.tokens l) else none := by
  induction l with
  | nil => rfl
  | cons e rest ih =>
    rw [List.mapM_cons, ih, elem_eq, accepted_elems, layout_list]
    cases h1 : (if is_col_like e.caps || is_tup_like e.caps then accepted e else true) <;>
      cases h2 : accepted_elems rest <;> rfl

theorem str_like_of_col_like (c : TypeCaps) (h : is_col_like c = true) :
    is_str_like c = false := by
  simp only [is_col_like, Bool.and_eq_true, Bool.not_eq_true'] at h
  exact h.2

theorem requires_of_col_like (c : TypeCaps) (h : is_col_like c = true) :
    (pretty_view_requires c && operator_shl_requires c) = true := by
  simp [pretty_view_requires, operator_shl_requires, h, str_like_of_col_like c h]

theorem requires_of_tup_like (c : TypeCaps) (h : is_tup_like c = true)
    (hs : is_str_like c = false) :
    (pretty_view_requires c && operator_shl_requires c) = true := by
  simp [pretty_view_requires, operator_shl_requires, h, hs]

theorem col_branch_eq (pv : pretty_view) (os : String)
    (hcol : is_col_like pv.t.caps = true) :
    operator_shl os pv =
      (pv.t.range.mapM (fun e =>
          if is_col_like e.caps || is_tup_like e.caps then operator_shl "" { pv with t := e }
          else some e.text)).map
        (fun rs => os ++ pv.col_pref ++ String.intercalate pv.col_delim rs ++ pv.col_post) := by
  rw [mapM_elem_eq, operator_shl_eq]
  obtain ⟨t, cp, cd, cq, tp, td, tq⟩ := pv
  cases t with
  | mk caps text range fields =>
    simp only [Value.caps] at hcol
    simp only [accepted, layout, requires_of_col_like caps hcol, hcol, Value.range,
      pretty_view.tokens, if_true, Bool.true_and]
    by_cases ha : accepted_elems range = true
    · simp [ha, String.append_assoc]
    · simp [ha]

theorem tup_branch_eq (pv : pretty_view) (os : String)
    (hcol : is_col_like pv.t.caps = false) (htup : is_tup_like pv.t.caps = true)
    (hstr : is_str_like pv.t.caps = false) :
    operator_shl os pv =
      (pv.t.fields.mapM (fun e =>
          if is_col_like e.caps || is_tup_like e.caps then operator_shl "" { pv with t := e }
          else some e.text)).map
        (fun rs => os ++ pv.tup_pref ++ String.intercalate pv.tup_delim rs ++ pv.tup_post) := by
  rw [mapM_elem_eq, operator_shl_eq]
  obtain ⟨t, cp, cd, cq, tp, td, tq⟩ := pv
  cases t with
  | mk caps text range fields =>
    simp only [Value.caps] at hcol htup hstr
    simp only [accepted, layout, requires_of_tup_like caps htup hstr, hcol, htup, Value.fields,
      pretty_view.tokens, if_true, Bool.true_and]
    by_cases ha : accepted_elems fields = true
    · simp [ha, String.append_assoc]
    · simp [ha]

/-! ## Claims -/

/-- C1. Collection branch: for a proxy over a collection-like value, writing it
to a stream holding `os` leaves `os`, then `col_pref`, then the renderings of
the elements in traversal order joined by `col_delim`, then `col_post`; an
element that is collection-like or tuple-like is rendered by a proxy with the
same six tokens, any other element by its default text. The renderings are
taken one per element, in order. -/
theorem collection_branch_layout (pv : pretty_view) (os : String)
    (hcol : is_col_like pv.t.caps = true) :
    operator_shl os pv =
      (pv.t.range.mapM (fun e =>
          if is_col_like e.caps || is_tup_like e.caps then operator_shl "" { pv with t := e }
          else some e.text)).map
        (fun rs => os ++ pv.col_pref ++ String.intercalate pv.col_delim rs ++ pv.col_post) :=
  col_branch_eq pv os hcol

/-- Witness for C1: the sequence 1, 2, 3 with default tokens gives `[1, 2, 3]`. -/
theorem collection_branch_layout_witness :
    is_col_like (vector_val [int_val "1", int_val "2", int_val "3"]).caps = true ∧
      operator_shl "" { t := vector_val [int_val "1", int_val "2", int_val "3"] } =
        some "[1, 2, 3]" :=
  ⟨by decide,
    (collection_branch_layout { t := vector_val [int_val "1", int_val "2", int_val "3"] } ""
      (by decide)).trans (by decide)⟩

/-- C2. Tuple branch: for a proxy over a value that is tuple-like and not
collection-like, writing it to a stream holding `os` leaves `os`, then
`tup_pref`, then the renderings of positions 0, 1, ... in ascending order joined
by `tup_delim`, then `tup_post`, with the same element rule and the same six
tokens as the collection branch. -/
theorem tuple_branch_layout (pv : pretty_view) (os : String)
    (hcol : is_col_like pv.t.caps = false) (htup : is_tup_like pv.t.caps = true)
    (hstr : is_str_like pv.t.caps = false) :
    operator_shl os pv =
      (pv.t.fields.mapM (fun e =>
          if is_col_like e.caps || is_tup_like e.caps then operator_shl "" { pv with t := e }
          else some e.text)).map
        (fun rs => os ++ pv.tup_pref ++ String.intercalate pv.tup_delim rs ++ pv.tup_post) :=
  tup_branch_eq pv os hcol htup hstr

/-- Witness for C2: the pair of 1 and the string a with default tokens. -/
theorem tuple_branch_layout_witness :
    is_col_like (tuple_val [int_val "1", string_val "a"]).caps = false ∧
      is_tup_like (tuple_val [int_val "1", string_val "a"]).caps = true ∧
      is_str_like (tuple_val [int_val "1", string_val "a"]).caps = false ∧
      operator_shl "" { t := tuple_val [int_val "1", string_val "a"] } = some "\x7b1, a\x7d" :=
  ⟨by decide, by decide, by decide,
    (tuple_branch_layout { t := tuple_val [int_val "1", string_val "a"] } ""
      (by decide) (by decide) (by decide)).trans (by decide)⟩

/-- C3. Token stability under nesting: writing a proxy gives exactly the
reference layout, in which every nested collection carries the outer call's
`col_pref`, `col_delim`, `col_post` and every nested tuple the outer call's
`tup_pref`, `tup_delim`, `tup_post`, at every depth; it is rejected exactly when
some proxy met on the way fails its `requires` clause. The sequence of sequences
1, 2 and 3 with collection tokens `<`, `;`, `>` renders as `<<1;2>;<3>>`. -/
theorem nested_tokens_stable :
    (∀ (pv : pretty_view) (os : String),
      operator_shl os pv =
        if accepted pv.t then some (os ++ layout pv.tokens pv.t) else none) ∧
    operator_shl ""
      { t := vector_val [vector_val [int_val "1", int_val "2"], vector_val [int_val "3"]],
        col_pref := "<", col_delim := ";", col_post := ">" } = some "<<1;2>;<3>>" :=
  ⟨operator_shl_eq, by decide⟩

end rmsn

namespace rmsn

/-- C4. Empty collection: a proxy over a collection-like value with no element
writes `col_pref` immediately followed by `col_post`; the text is the same
whatever the collection delimiter is, so the delimiter is not written. -/
theorem empty_collection_layout (pv : pretty_view) (os : String)
    (hcol : is_col_like pv.t.caps = true) (hempty : pv.t.range = []) :
    operator_shl os pv = some (os ++ pv.col_pref ++ pv.col_post) ∧
      ∀ d : String,
        operator_shl os { pv with col_delim := d } = some (os ++ pv.col_pref ++ pv.col_post) := by
  have key : ∀ q : pretty_view, is_col_like q.t.caps = true → q.t.range = [] →
      operator_shl os q = some (os ++ q.col_pref ++ q.col_post) := by
    intro q hq he
    rw [col_branch_eq q os hq, he, List.mapM_nil]
    simp [String.intercalate]
  exact ⟨key pv hcol hempty, fun d => key { pv with col_delim := d } hcol hempty⟩

/-- Witness for C4: the empty sequence with default tokens gives `[]`. -/
theorem empty_collection_layout_witness :
    operator_shl "" { t := vector_val [] } = some "[]" ∧
      ∀ d : String, operator_shl "" { t := vector_val [], col_delim := d } = some "[]" :=
  empty_collection_layout { t := vector_val [] } "" (by decide) rfl

/-- C5. Zero-arity tuple: a proxy over a value that is tuple-like, not
collection-like, and has no position writes `tup_pref` immediately followed by
`tup_post`; the text is the same whatever the tuple delimiter is, so the
delimiter is not written. -/
theorem empty_tuple_layout (pv : pretty_view) (os : String)
    (hcol : is_col_like pv.t.caps = false) (htup : is_tup_like pv.t.caps = true)
    (hstr : is_str_like pv.t.caps = false) (hempty : pv.t.fields = []) :
    operator_shl os pv = some (os ++ pv.tup_pref ++ pv.tup_post) ∧
      ∀ d : String,
        operator_shl os { pv with tup_delim := d } = some (os ++ pv.tup_pref ++ pv.tup_post) := by
  have key : ∀ q : pretty_view, is_col_like q.t.caps = false → is_tup_like q.t.caps = true →
      is_str_like q.t.caps = false → q.t.fields = [] →
      operator_shl os q = some (os ++ q.tup_pref ++ q.tup_post) := by
    intro q hq ht hs he
    rw [tup_branch_eq q os hq ht hs, he, List.mapM_nil]
    simp [String.intercalate]
  exact ⟨key pv hcol htup hstr hempty,
    fun d => key { pv with tup_delim := d } hcol htup hstr hempty⟩

/-- Witness for C5: the tuple of no element with default tokens gives the two
braces. -/
theorem empty_tuple_layout_witness :
    operator_shl "" { t := tuple_val [] } = some "\x7b\x7d" ∧
      ∀ d : String, operator_shl "" { t := tuple_val [], tup_delim := d } = some "\x7b\x7d" :=
  empty_tuple_layout { t := tuple_val [] } "" (by decide) (by decide) (by decide) rfl

/-- C6, as stated, fails: the single element of this sequence has a string-like
type (it converts to `std::string`) that also has a `tuple_size`; the element
rule sends it to a proxy, whose `requires` clause refuses string-like types, so
the element is not written as its default text `ab` and nothing is rendered. -/
theorem string_like_element_counterexample :
    is_col_like (vector_val [named_pair_val "ab" (int_val "1") (int_val "2")]).caps = true ∧
      is_str_like (named_pair_val "ab" (int_val "1") (int_val "2")).caps = true ∧
      render_elem (pretty_view.tokens { t := int_val "" })
        (named_pair_val "ab" (int_val "1") (int_val "2")) "[" = none ∧
      operator_shl "" { t := vector_val [named_pair_val "ab" (int_val "1") (int_val "2")] } = none ∧
      operator_shl "" { t := vector_val [named_pair_val "ab" (int_val "1") (int_val "2")] } ≠
        some "[ab]" := by
  decide

/-- C6, amended. An element whose type is string-like and not tuple-like is
written as its default text, in the collection loop and in the tuple fold: the
stream receives the delimiter (when the element is not the first) and then the
element's text, with no open or close token and nothing between its characters,
whatever its character-level traversal holds. -/
theorem string_like_element_written_whole (pv : Tokens) (e : Value) (rest : List Value)
    (n : Nat) (os : String)
    (hstr : is_str_like e.caps = true) (hnt : is_tup_like e.caps = false) :
    col_loop pv (e :: rest) n os =
        col_loop pv rest (n + 1) ((if n ≠ 0 then os ++ pv.col_delim else os) ++ e.text) ∧
      tup_fold pv (e :: rest) n os =
        tup_fold pv rest (n + 1) ((if n = 0 then os else os ++ pv.tup_delim) ++ e.text) := by
  have hc : is_col_like e.caps = false := by simp [is_col_like, hstr]
  constructor
  · rw [col_loop]
    simp [hc, hnt]
  · rw [tup_fold]
    simp [hc, hnt]

/-- Witness for C6, amended: the string `ab` as second element of a sequence and
of a tuple. -/
theorem string_like_element_written_whole_witness :
    col_loop (pretty_view.tokens { t := int_val "" }) [string_val "ab"] 1 "[1" = some "[1, ab" ∧
      tup_fold (pretty_view.tokens { t := int_val "" }) [string_val "ab"] 1 "\x7b1" =
        some "\x7b1, ab" :=
  ⟨(string_like_element_written_whole (pretty_view.tokens { t := int_val "" })
      (string_val "ab") [] 1 "[1" (by decide) (by decide)).1.trans (by decide),
    (string_like_element_written_whole (pretty_view.tokens { t := int_val "" })
      (string_val "ab") [] 1 "\x7b1" (by decide) (by decide)).2.trans (by decide)⟩

/-- C7. Dispatch priority: a proxy over a value whose type is both
collection-like and tuple-like takes the collection branch. The text is
`col_pref`, the renderings of the traversal joined by `col_delim`, `col_post`,
no tuple token is written at that level, and the positional elements are not
consulted: replacing them leaves the text unchanged. -/
theorem hybrid_takes_collection_branch (pv : pretty_view) (os : String)
    (hcol : is_col_like pv.t.caps = true) (_htup : is_tup_like pv.t.caps = true) :
    operator_shl os pv =
        (pv.t.range.mapM (fun e =>
            if is_col_like e.caps || is_tup_like e.caps then operator_shl "" { pv with t := e }
            else some e.text)).map
          (fun rs => os ++ pv.col_pref ++ String.intercalate pv.col_delim rs ++ pv.col_post) ∧
      ∀ fields : List Value,
        operator_shl os { pv with t := .mk pv.t.caps pv.t.text pv.t.range fields } =
          operator_shl os pv := by
  refine ⟨col_branch_eq pv os hcol, fun fields => ?_⟩
  rw [col_branch_eq pv os hcol,
    col_branch_eq { pv with t := .mk pv.t.caps pv.t.text pv.t.range fields } os hcol]
  rfl

/-- Witness for C7: a `std::array` of 1, 2 renders with brackets, and does so
whatever its positional view holds. -/
theorem hybrid_takes_collection_branch_witness :
    is_col_like (array_val [int_val "1", int_val "2"]).caps = true ∧
      is_tup_like (array_val [int_val "1", int_val "2"]).caps = true ∧
      operator_shl "" { t := array_val [int_val "1", int_val "2"] } = some "[1, 2]" ∧
      ∀ fields : List Value,
        operator_shl "" { t := .mk array_caps "" [int_val "1", int_val "2"] fields } =
          operator_shl "" { t := array_val [int_val "1", int_val "2"] } :=
  ⟨by decide, by decide,
    (hybrid_takes_collection_branch { t := array_val [int_val "1", int_val "2"] } ""
      (by decide) (by decide)).1.trans (by decide),
    (hybrid_takes_collection_branch { t := array_val [int_val "1", int_val "2"] } ""
      (by decide) (by decide)).2⟩

/-- C8. Default tokens: a proxy built from the data reference alone carries
`[`, `, `, `]` and the two braces around `, `; under aggregate initialisation
each token that is given an initialiser is that text and each token that is
given none is its default. The sequence 1, 2 with collection tokens `<`, `;`,
`>` renders as `<1;2>` while its tuple tokens are still the defaults. -/
theorem default_tokens :
    (∀ t : Value,
      ({ t := t } : pretty_view).tokens = ⟨"[", ", ", "]", "\x7b", ", ", "\x7d"⟩) ∧
    (∀ (t : Value) (o1 o2 o3 o4 o5 o6 : Option String),
      (pretty_view.init t o1 o2 o3 o4 o5 o6).t = t ∧
      (pretty_view.init t o1 o2 o3 o4 o5 o6).tokens =
        ⟨o1.getD "[", o2.getD ", ", o3.getD "]", o4.getD "\x7b", o5.getD ", ", o6.getD "\x7d"⟩) ∧
    operator_shl ""
      (pretty_view.init (vector_val [int_val "1", int_val "2"])
        (some "<") (some ";") (some ">") none none none) = some "<1;2>" ∧
    (pretty_view.init (vector_val [int_val "1", int_val "2"])
        (some "<") (some ";") (some ">") none none none).tokens =
      ⟨"<", ";", ">", "\x7b", ", ", "\x7d"⟩ := by
  refine ⟨fun t => rfl, ?_, by decide, by decide⟩
  intro t o1 o2 o3 o4 o5 o6
  cases o1 <;> cases o2 <;> cases o3 <;> cases o4 <;> cases o5 <;> cases o6 <;>
    exact ⟨rfl, rfl⟩

end rmsn

namespace rmsn

/-! ## Counting delimiter occurrences -/

theorem count_occ_skip (c : Char) (d' A X : List Char) (h : c ∉ A) :
    count_occ (c :: d') (A ++ X) = count_occ (c :: d') X := by
  induction A with
  | nil => rfl
  | cons a A ih =>
    have hca : c ≠ a := fun hEq => h (hEq ▸ List.mem_cons_self _ _)
    have hA : c ∉ A := fun hm => h (List.mem_cons_of_mem _ hm)
    simp only [List.cons_append, count_occ, List.isPrefixOf]
    simp [hca, ih hA]

theorem count_occ_nil (c : Char) (d' : List Char) : count_occ (c :: d') [] = 0 := by
  simp [count_occ, List.isPrefixOf]

theorem count_occ_delim (c : Char) (d' B : List Char) (h : c ∉ d') :
    count_occ (c :: d') ((c :: d') ++ B) = 1 + count_occ (c :: d') B := by
  have hp : (c :: d').isPrefixOf (c :: (d' ++ B)) = true := by
    rw [List.isPrefixOf_iff_prefix]
    exact List.prefix_append (c :: d') B
  have hs := count_occ_skip c d' d' B h
  show (if (c :: d').isPrefixOf (c :: (d' ++ B)) = true then 1 else 0) +
      count_occ (c :: d') (d' ++ B) = 1 + count_occ (c :: d') B
  rw [hp, hs]
  rfl

theorem count_occ_sep_tail (d : String) (c : Char) (d' : List Char) (hd : d.data = c :: d')
    (hc : c ∉ d') (post : List Char) (hpost : c ∉ post) (rs : List String)
    (hrs : ∀ r ∈ rs, c ∉ r.data) :
    count_occ (c :: d') (sep_tail d rs ++ post) = rs.length := by
  induction rs with
  | nil =>
    simpa [sep_tail, count_occ_nil] using count_occ_skip c d' post [] hpost
  | cons r rs ih =>
    have hr : c ∉ r.data := hrs r (List.mem_cons_self _ _)
    have ih1 := ih (fun x hx => hrs x (List.mem_cons_of_mem _ hx))
    rw [sep_tail, hd, List.append_assoc, List.append_assoc, count_occ_delim c d' _ hc,
      count_occ_skip c d' _ _ hr, ih1, List.length_cons]
    omega

theorem data_foldl_sep (d : String) (rs : List String) (a : String) :
    (rs.foldl (fun acc r => acc ++ d ++ r) a).data = a.data ++ sep_tail d rs := by
  induction rs generalizing a with
  | nil => simp [sep_tail]
  | cons r rs ih => simp [ih, sep_tail, String.data_append, List.append_assoc]

theorem data_intercalate_cons (d r : String) (rs : List String) :
    (String.intercalate d (r :: rs)).data = r.data ++ sep_tail d rs := by
  simp only [String.intercalate, intercalate_go_eq, data_foldl_sep]

theorem occurrences_joined (pre d post : String) (c : Char) (d' : List Char)
    (hd : d.data = c :: d') (hc : c ∉ d') (hpre : c ∉ pre.data) (hpost : c ∉ post.data)
    (r : String) (rs : List String) (hrs : ∀ x ∈ r :: rs, c ∉ x.data) :
    occurrences d (pre ++ String.intercalate d (r :: rs) ++ post) = rs.length := by
  have hr : c ∉ r.data := hrs r (List.mem_cons_self _ _)
  rw [occurrences, hd, String.data_append, String.data_append, data_intercalate_cons,
    List.append_assoc, List.append_assoc, count_occ_skip c d' _ _ hpre,
    count_occ_skip c d' _ _ hr]
  exact count_occ_sep_tail d c d' hd hc post.data hpost rs
    (fun x hx => hrs x (List.mem_cons_of_mem _ hx))

theorem mapM_some_of_forall {α β : Type} (f : α → Option β) (p : β → Prop) (l : List α)
    (h : ∀ a ∈ l, ∃ b, f a = some b ∧ p b) :
    ∃ bs, l.mapM f = some bs ∧ bs.length = l.length ∧ ∀ b ∈ bs, p b := by
  induction l with
  | nil => exact ⟨[], rfl, rfl, fun b hb => absurd hb (List.not_mem_nil b)⟩
  | cons a l ih =>
    obtain ⟨b, hb, hpb⟩ := h a (List.mem_cons_self _ _)
    obtain ⟨bs, hbs, hlen, hall⟩ := ih (fun x hx => h x (List.mem_cons_of_mem _ hx))
    refine ⟨b :: bs, ?_, by simp [hlen], ?_⟩
    · rw [List.mapM_cons, hb, hbs]
      rfl
    · intro x hx
      rcases List.mem_cons.mp hx with rfl | hx
      · exact hpb
      · exact hall x hx

/-- Occurrences of the delimiter as a piece of text in the output of a
collection: when the first character of `col_delim` occurs nowhere else in the
delimiter and in none of `col_pref`, `col_post` and the element renderings, the
output of a collection of N elements, N at least 1, holds exactly N - 1 of
them. Without those conditions the text can hold more, since element renderings
are inserted as they are. -/
theorem collection_substring_count (pv : pretty_view) (c : Char) (d' : List Char)
    (hcol : is_col_like pv.t.caps = true) (hne : pv.t.range ≠ [])
    (hd : pv.col_delim.data = c :: d') (hc : c ∉ d')
    (hpre : c ∉ pv.col_pref.data) (hpost : c ∉ pv.col_post.data)
    (hel : ∀ e ∈ pv.t.range, ∃ r,
      (if is_col_like e.caps || is_tup_like e.caps then operator_shl "" { pv with t := e }
        else some e.text) = some r ∧ c ∉ r.data) :
    ∃ rs out,
      pv.t.range.mapM (fun e =>
          if is_col_like e.caps || is_tup_like e.caps then operator_shl "" { pv with t := e }
          else some e.text) = some rs ∧
      rs.length = pv.t.range.length ∧
      operator_shl "" pv = some out ∧
      out = pv.col_pref ++ String.intercalate pv.col_delim rs ++ pv.col_post ∧
      occurrences pv.col_delim out = pv.t.range.length - 1 := by
  obtain ⟨rs, hrs, hlen, hall⟩ := mapM_some_of_forall _ (fun r : String => c ∉ r.data) pv.t.range hel
  refine ⟨rs, pv.col_pref ++ String.intercalate pv.col_delim rs ++ pv.col_post,
    hrs, hlen, ?_, rfl, ?_⟩
  · rw [col_branch_eq pv "" hcol, hrs]
    simp
  · cases rs with
    | nil =>
      exfalso
      apply hne
      exact List.length_eq_zero.mp hlen.symm
    | cons r rs =>
      rw [occurrences_joined pv.col_pref pv.col_delim pv.col_post c d' hd hc hpre hpost r rs hall,
        ← hlen, List.length_cons]
      omega

end rmsn

namespace rmsn

/-- Occurrences of the delimiter as a piece of text in the output of a tuple:
when the first character of `tup_delim` occurs nowhere else in the delimiter and
in none of `tup_pref`, `tup_post` and the renderings of the positions, the
output of a tuple of arity N, N at least 1, holds exactly N - 1 of them. -/
theorem tuple_substring_count (pv : pretty_view) (c : Char) (d' : List Char)
    (hcol : is_col_like pv.t.caps = false) (htup : is_tup_like pv.t.caps = true)
    (hstr : is_str_like pv.t.caps = false) (hne : pv.t.fields ≠ [])
    (hd : pv.tup_delim.data = c :: d') (hc : c ∉ d')
    (hpre : c ∉ pv.tup_pref.data) (hpost : c ∉ pv.tup_post.data)
    (hel : ∀ e ∈ pv.t.fields, ∃ r,
      (if is_col_like e.caps || is_tup_like e.caps then operator_shl "" { pv with t := e }
        else some e.text) = some r ∧ c ∉ r.data) :
    ∃ rs out,
      pv.t.fields.mapM (fun e =>
          if is_col_like e.caps || is_tup_like e.caps then operator_shl "" { pv with t := e }
          else some e.text) = some rs ∧
      rs.length = pv.t.fields.length ∧
      operator_shl "" pv = some out ∧
      out = pv.tup_pref ++ String.intercalate pv.tup_delim rs ++ pv.tup_post ∧
      occurrences pv.tup_delim out = pv.t.fields.length - 1 := by
  obtain ⟨rs, hrs, hlen, hall⟩ :=
    mapM_some_of_forall _ (fun r : String => c ∉ r.data) pv.t.fields hel
  refine ⟨rs, pv.tup_pref ++ String.intercalate pv.tup_delim rs ++ pv.tup_post,
    hrs, hlen, ?_, rfl, ?_⟩
  · rw [tup_branch_eq pv "" hcol htup hstr, hrs]
    simp
  · cases rs with
    | nil =>
      exfalso
      apply hne
      exact List.length_eq_zero.mp hlen.symm
    | cons r rs =>
      rw [occurrences_joined pv.tup_pref pv.tup_delim pv.tup_post c d' hd hc hpre hpost r rs hall,
        ← hlen, List.length_cons]
      omega

theorem tup_of_accepted (v : Value) (h : accepted v = true)
    (hcol : is_col_like v.caps = false) :
    is_tup_like v.caps = true ∧ is_str_like v.caps = false := by
  cases v with
  | mk caps text range fields =>
    simp only [Value.caps] at hcol ⊢
    rw [accepted] at h
    simp only [Bool.and_eq_true] at h
    have hreq := h.1.1
    simp only [pretty_view_requires, hcol, Bool.false_or, Bool.and_eq_true,
      Bool.not_eq_true'] at hreq
    exact hreq

/-- C12. Sink chaining and no extra framing: writing a proxy to a stream that
holds `s` leaves `s` followed by exactly what the proxy writes to an empty
stream, and the stream returned is that one, so writing `pv` and then `pw`
leaves `s`, the rendering of `pv`, the rendering of `pw`. A rendering begins
with the open token and ends with the close token of the branch taken. -/
theorem sink_chaining (pv pw : pretty_view) (s : String) :
    operator_shl s pv = (operator_shl "" pv).map (fun r => s ++ r) ∧
      (operator_shl s pv).bind (fun s1 => operator_shl s1 pw) =
        (operator_shl "" pv).bind (fun rv =>
          (operator_shl "" pw).map (fun rw => s ++ rv ++ rw)) ∧
      (∀ r, operator_shl "" pv = some r → is_col_like pv.t.caps = true →
        ∃ mid, r = pv.col_pref ++ mid ++ pv.col_post) ∧
      (∀ r, operator_shl "" pv = some r → is_col_like pv.t.caps = false →
        ∃ mid, r = pv.tup_pref ++ mid ++ pv.tup_post) := by
  have frame : ∀ (q : pretty_view) (x : String),
      operator_shl x q = (operator_shl "" q).map (fun r => x ++ r) := by
    intro q x
    rw [operator_shl_eq, operator_shl_eq]
    cases accepted q.t <;> simp
  refine ⟨frame pv s, ?_, ?_, ?_⟩
  · rw [frame pv s]
    cases h : operator_shl "" pv with
    | none => rfl
    | some rv =>
      simp only [Option.map_some', Option.some_bind]
      rw [frame pw (s ++ rv)]
  · intro r hr hcol
    rw [col_branch_eq pv "" hcol] at hr
    obtain ⟨rs, _, hrs⟩ := Option.map_eq_some'.mp hr
    exact ⟨String.intercalate pv.col_delim rs, by rw [← hrs]; simp⟩
  · intro r hr hcol
    have hacc : accepted pv.t = true := by
      rw [operator_shl_eq] at hr
      by_contra hn
      simp [hn] at hr
    obtain ⟨htup, hstr⟩ := tup_of_accepted pv.t hacc hcol
    rw [tup_branch_eq pv "" hcol htup hstr] at hr
    obtain ⟨rs, _, hrs⟩ := Option.map_eq_some'.mp hr
    exact ⟨String.intercalate pv.tup_delim rs, by rw [← hrs]; simp⟩

/-- Witness for C12: 1, 2 and then the pair 3, 4 written to a stream holding
`x = `. -/
theorem sink_chaining_witness :
    (operator_shl "x = " { t := vector_val [int_val "1", int_val "2"] }).bind
        (fun s1 => operator_shl s1 { t := tuple_val [int_val "3", int_val "4"] }) =
          some "x = [1, 2]\x7b3, 4\x7d" ∧
      (∃ mid, "[1, 2]" = "[" ++ mid ++ "]") ∧
      (∃ mid, "\x7b3, 4\x7d" = "\x7b" ++ mid ++ "\x7d") :=
  ⟨(sink_chaining { t := vector_val [int_val "1", int_val "2"] }
      { t := tuple_val [int_val "3", int_val "4"] } "x = ").2.1.trans (by decide),
    (sink_chaining { t := vector_val [int_val "1", int_val "2"] }
      { t := tuple_val [int_val "3", int_val "4"] } "").2.2.1 "[1, 2]" (by decide) (by decide),
    (sink_chaining { t := tuple_val [int_val "3", int_val "4"] }
      { t := tuple_val [int_val "3", int_val "4"] } "").2.2.2 "\x7b3, 4\x7d"
      (by decide) (by decide)⟩

end rmsn

namespace rmsn

/-- C13. Rendering is not injective: the one-element sequence of the string
`a, b` and the two-element sequence of the strings `a` and `b` are distinct
values of one type (a sequence of strings), and with the default tokens both
are written as `[a, b]`, the text of the elements being inserted as it is. -/
theorem rendering_not_injective :
    one_string_val.range.length ≠ two_strings_val.range.length ∧
      one_string_val ≠ two_strings_val ∧
      one_string_val.caps = two_strings_val.caps ∧
      (∀ e ∈ one_string_val.range ++ two_strings_val.range, e.caps = string_caps) ∧
      operator_shl "" { t := one_string_val } = some "[a, b]" ∧
      operator_shl "" { t := two_strings_val } = some "[a, b]" ∧
      operator_shl "" { t := one_string_val } = operator_shl "" { t := two_strings_val } := by
  refine ⟨by decide, ?_, by decide, by decide, by decide, by decide, by decide⟩
  intro h
  have hlen := congrArg (fun v => v.range.length) h
  revert hlen
  decide

/-- C17. Branch agreement: when the tuple tokens equal the collection tokens, a
proxy over a tuple and a proxy over a collection with the same elements in the
same order write the same text (or are both rejected): the collection loop and
the index-sequence fold produce one separator-joined layout. -/
theorem branch_agreement (pv : pretty_view) (vt vc : Value) (os : String)
    (hpref : pv.tup_pref = pv.col_pref) (hdelim : pv.tup_delim = pv.col_delim)
    (hpost : pv.tup_post = pv.col_post)
    (htc : is_col_like vt.caps = false) (htt : is_tup_like vt.caps = true)
    (hts : is_str_like vt.caps = false) (hcc : is_col_like vc.caps = true)
    (hsame : vt.fields = vc.range) :
    operator_shl os { pv with t := vt } = operator_shl os { pv with t := vc } := by
  rw [tup_branch_eq { pv with t := vt } os htc htt hts, col_branch_eq { pv with t := vc } os hcc]
  simp only [hpref, hdelim, hpost, hsame]

/-- Witness for C17: the tuple 1, 2 and the sequence 1, 2 with brackets for
both kinds. -/
theorem branch_agreement_witness :
    operator_shl "" { t := tuple_val [int_val "1", int_val "2"], tup_pref := "[", tup_post := "]" } =
        operator_shl "" { t := vector_val [int_val "1", int_val "2"], tup_pref := "[", tup_post := "]" } ∧
      operator_shl "" { t := tuple_val [int_val "1", int_val "2"], tup_pref := "[", tup_post := "]" } =
        some "[1, 2]" :=
  ⟨branch_agreement { t := int_val "", tup_pref := "[", tup_post := "]" }
      (tuple_val [int_val "1", int_val "2"]) (vector_val [int_val "1", int_val "2"]) ""
      rfl rfl rfl (by decide) (by decide) (by decide) (by decide) rfl,
    by decide⟩

/-! ## Token non-interference -/

mutual
theorem layout_no_tuple (p q : Tokens) (h1 : p.col_pref = q.col_pref)
    (h2 : p.col_delim = q.col_delim) (h3 : p.col_post = q.col_post) :
    ∀ v : Value, no_tuple v = true → layout p v = layout q v
  | .mk caps text range fields, h => by
    rw [no_tuple] at h
    rw [layout, layout]
    by_cases hc : is_col_like caps = true
    · simp only [hc, if_true] at h ⊢
      rw [layout_list_no_tuple p q h1 h2 h3 range h, h1, h2, h3]
    · by_cases ht : is_tup_like caps = true
      · simp [hc, ht] at h
      · simp [hc, ht]
theorem layout_list_no_tuple (p q : Tokens) (h1 : p.col_pref = q.col_pref)
    (h2 : p.col_delim = q.col_delim) (h3 : p.col_post = q.col_post) :
    ∀ l : List Value, no_tuple_elems l = true → layout_list p l = layout_list q l
  | [], _ => rfl
  | e :: rest, h => by
    rw [no_tuple_elems, Bool.and_eq_true] at h
    rw [layout_list, layout_list, layout_no_tuple p q h1 h2 h3 e h.1,
      layout_list_no_tuple p q h1 h2 h3 rest h.2]
end

mutual
theorem layout_no_collection (p q : Tokens) (h1 : p.tup_pref = q.tup_pref)
    (h2 : p.tup_delim = q.tup_delim) (h3 : p.tup_post = q.tup_post) :
    ∀ v : Value, no_collection v = true → layout p v = layout q v
  | .mk caps text range fields, h => by
    rw [no_collection] at h
    rw [layout, layout]
    by_cases hc : is_col_like caps = true
    · simp [hc] at h
    · by_cases ht : is_tup_like caps = true
      · have hc' : is_col_like caps = false := by simpa using hc
        simp only [hc', ht, if_true, Bool.false_eq_true, if_false] at h ⊢
        rw [layout_list_no_collection p q h1 h2 h3 fields h, h1, h2, h3]
      · simp [hc, ht]
theorem layout_list_no_collection (p q : Tokens) (h1 : p.tup_pref = q.tup_pref)
    (h2 : p.tup_delim = q.tup_delim) (h3 : p.tup_post = q.tup_post) :
    ∀ l : List Value, no_collection_elems l = true → layout_list p l = layout_list q l
  | [], _ => rfl
  | e :: rest, h => by
    rw [no_collection_elems, Bool.and_eq_true] at h
    rw [layout_list, layout_list, layout_no_collection p q h1 h2 h3 e h.1,
      layout_list_no_collection p q h1 h2 h3 rest h.2]
end

/-- C15. Token non-interference: for a value that holds no tuple at any nesting
level, two proxies whose collection tokens agree write the same text, whatever
their tuple tokens are; for a value that holds no collection at any nesting
level, two proxies whose tuple tokens agree write the same text, whatever their
collection tokens are. -/
theorem token_non_interference (pv pw : pretty_view) (os : String) (hv : pv.t = pw.t) :
    (no_tuple pv.t = true → pv.col_pref = pw.col_pref → pv.col_delim = pw.col_delim →
        pv.col_post = pw.col_post → operator_shl os pv = operator_shl os pw) ∧
      (no_collection pv.t = true → pv.tup_pref = pw.tup_pref → pv.tup_delim = pw.tup_delim →
        pv.tup_post = pw.tup_post → operator_shl os pv = operator_shl os pw) := by
  constructor
  · intro hn h1 h2 h3
    rw [operator_shl_eq, operator_shl_eq, ← hv,
      layout_no_tuple pv.tokens pw.tokens h1 h2 h3 pv.t hn]
  · intro hn h1 h2 h3
    rw [operator_shl_eq, operator_shl_eq, ← hv,
      layout_no_collection pv.tokens pw.tokens h1 h2 h3 pv.t hn]

/-- Witness for C15: a sequence of sequences ignores the tuple tokens, a tuple
of tuples ignores the collection tokens. -/
theorem token_non_interference_witness :
    operator_shl "" { t := vector_val [vector_val [int_val "1", int_val "2"], vector_val []] } =
        operator_shl ""
          { t := vector_val [vector_val [int_val "1", int_val "2"], vector_val []],
            tup_pref := "(", tup_delim := "/", tup_post := ")" } ∧
      operator_shl "" { t := nested_tuple_val } =
        operator_shl ""
          { t := nested_tuple_val, col_pref := "<", col_delim := ";", col_post := ">" } :=
  ⟨(token_non_interference
      { t := vector_val [vector_val [int_val "1", int_val "2"], vector_val []] }
      { t := vector_val [vector_val [int_val "1", int_val "2"], vector_val []],
        tup_pref := "(", tup_delim := "/", tup_post := ")" } "" rfl).1
      (by decide) rfl rfl rfl,
    (token_non_interference { t := nested_tuple_val }
      { t := nested_tuple_val, col_pref := "<", col_delim := ";", col_post := ">" } "" rfl).2
      (by decide) rfl rfl rfl⟩

end rmsn

namespace rmsn

/-! ## Termination and call depth -/

theorem col_loop_bounded_eq (call : Tokens → Value → String → Bounded) (pv : Tokens)
    (l : List Value)
    (h : ∀ e ∈ l, ∀ (tk : Tokens) (os : String), call tk e os = .finished (shl tk e os)) :
    ∀ (it : Nat) (os : String),
      col_loop_bounded call pv l it os = .finished (col_loop pv l it os) := by
  induction l with
  | nil => intro it os; rfl
  | cons e rest ih =>
    intro it os
    have he := h e (List.mem_cons_self _ _)
    have ih1 := ih (fun x hx => h x (List.mem_cons_of_mem _ hx))
    rw [col_loop_bounded, col_loop]
    by_cases hd : (is_col_like e.caps || is_tup_like e.caps) = true
    · simp only [hd, if_true, he]
      cases shl ⟨pv.col_pref, pv.col_delim, pv.col_post, pv.tup_pref, pv.tup_delim,
          pv.tup_post⟩ e (if it ≠ 0 then os ++ pv.col_delim else os) with
      | none => rfl
      | some os2 => exact ih1 (it + 1) os2
    · simp only [hd, if_false]
      exact ih1 (it + 1) _

theorem tup_fold_bounded_eq (call : Tokens → Value → String → Bounded) (pv : Tokens)
    (l : List Value)
    (h : ∀ e ∈ l, ∀ (tk : Tokens) (os : String), call tk e os = .finished (shl tk e os)) :
    ∀ (I : Nat) (os : String),
      tup_fold_bounded call pv l I os = .finished (tup_fold pv l I os) := by
  induction l with
  | nil => intro I os; rfl
  | cons e rest ih =>
    intro I os
    have he := h e (List.mem_cons_self _ _)
    have ih1 := ih (fun x hx => h x (List.mem_cons_of_mem _ hx))
    rw [tup_fold_bounded, tup_fold]
    by_cases hd : (is_col_like e.caps || is_tup_like e.caps) = true
    · simp only [hd, if_true, he]
      cases shl ⟨pv.col_pref, pv.col_delim, pv.col_post, pv.tup_pref, pv.tup_delim,
          pv.tup_post⟩ e (if I = 0 then os else os ++ pv.tup_delim) with
      | none => rfl
      | some os2 => exact ih1 (I + 1) os2
    · simp only [hd, if_false]
      exact ih1 (I + 1) _

theorem depth_le_of_mem (l : List Value) (e : Value) (h : e ∈ l) :
    depth e ≤ depth_elems l := by
  induction l with
  | nil => exact absurd h (List.not_mem_nil e)
  | cons a rest ih =>
    rw [depth_elems]
    rcases List.mem_cons.mp h with rfl | hm
    · exact Nat.le_max_left _ _
    · exact Nat.le_trans (ih hm) (Nat.le_max_right _ _)

theorem shl_bounded_eq (n : Nat) :
    ∀ (pv : Tokens) (v : Value) (os : String), depth v ≤ n →
      shl_bounded n pv v os = .finished (shl pv v os) := by
  induction n with
  | zero =>
    intro pv v os hd
    cases v with
    | mk caps text range fields =>
      rw [depth] at hd
      have hc : is_col_like caps = false := by
        by_contra hc
        simp only [Bool.not_eq_false] at hc
        simp [hc] at hd
      have ht : is_tup_like caps = false := by
        by_contra ht
        simp only [Bool.not_eq_false] at ht
        simp [hc, ht] at hd
      simp [shl_bounded, shl, Value.caps, pretty_view_requires, operator_shl_requires, hc, ht]
  | succ n ih =>
    intro pv v os hd
    cases v with
    | mk caps text range fields =>
      rw [depth] at hd
      rw [shl_bounded, shl]
      simp only [Value.caps, Value.range, Value.fields]
      by_cases hr : (pretty_view_requires caps && operator_shl_requires caps) = true
      · simp only [hr, if_true]
        by_cases hc : is_col_like caps = true
        · simp only [hc, if_true] at hd ⊢
          have hle : depth_elems range ≤ n := by omega
          rw [col_loop_bounded_eq (shl_bounded n) pv range
            (fun e he tk os1 => ih tk e os1 (Nat.le_trans (depth_le_of_mem range e he) hle))]
          cases col_loop pv range 0 (os ++ pv.col_pref) <;> rfl
        · by_cases ht : is_tup_like caps = true
          · have hc' : is_col_like caps = false := by simpa using hc
            simp only [hc', ht, if_true, Bool.false_eq_true, if_false] at hd ⊢
            have hle : depth_elems fields ≤ n := by omega
            rw [tup_fold_bounded_eq (shl_bounded n) pv fields
              (fun e he tk os1 => ih tk e os1 (Nat.le_trans (depth_le_of_mem fields e he) hle))]
            cases tup_fold pv fields 0 (os ++ pv.tup_pref) <;> rfl
          · simp [hc, ht]
      · simp [hr]

/-- C14. Termination: the renderer is a total function, and a rendering that
is allowed as many nested `operator<<` calls as the nesting depth of the value
never exceeds that allowance: for every value, token set and stream it runs to
its end and gives the result of the renderer. -/
theorem rendering_terminates (n : Nat) (pv : pretty_view) (os : String)
    (hdepth : depth pv.t ≤ n) :
    shl_bounded n pv.tokens pv.t os = .finished (operator_shl os pv) :=
  shl_bounded_eq n pv.tokens pv.t os hdepth

/-- Witness for C14: the sequence of the sequences 1, 2 and 3 has nesting depth
2 and is rendered with two nested calls. -/
theorem rendering_terminates_witness :
    depth (vector_val [vector_val [int_val "1", int_val "2"], vector_val [int_val "3"]]) = 2 ∧
      shl_bounded 2 (pretty_view.tokens { t := int_val "" })
        (vector_val [vector_val [int_val "1", int_val "2"], vector_val [int_val "3"]]) "" =
          .finished (some "[[1, 2], [3]]") :=
  ⟨by decide,
    (rendering_terminates 2
      { t := vector_val [vector_val [int_val "1", int_val "2"], vector_val [int_val "3"]] } ""
      (by decide)).trans (by decide)⟩

end rmsn

namespace rmsn

/-! ## Bracket structure of a rendering -/

theorem max_depth_ge (s : List Char) : ∀ cur : Nat, cur ≤ max_depth s cur := by
  induction s with
  | nil => intro cur; exact Nat.le_refl _
  | cons c s ih =>
    intro cur
    rw [max_depth]
    split
    · exact Nat.le_trans (Nat.le_succ cur) (ih (cur + 1))
    · split
      · exact Nat.le_max_left _ _
      · exact ih cur

theorem scan_bracket_free (t : List Char) (h : bracket_free t = true) (s : List Char) :
    (∀ st, well_nested (t ++ s) st = well_nested s st) ∧
      (∀ cur, max_depth (t ++ s) cur = max_depth s cur) := by
  induction t with
  | nil => exact ⟨fun _ => rfl, fun _ => rfl⟩
  | cons c t ih =>
    simp only [bracket_free, List.all_cons, Bool.and_eq_true, Bool.not_eq_true',
      Bool.or_eq_false_iff] at h
    have ih1 := ih (by simpa [bracket_free] using h.2)
    constructor
    · intro st
      simp only [List.cons_append, well_nested, h.1.1, h.1.2, Bool.false_eq_true, if_false]
      exact ih1.1 st
    · intro cur
      simp only [List.cons_append, max_depth, h.1.1, h.1.2, Bool.false_eq_true, if_false]
      exact ih1.2 cur

end rmsn

namespace rmsn

theorem scans_as_free (t : List Char) (h : bracket_free t = true) : scans_as t 0 := by
  intro s
  refine ⟨(scan_bracket_free t h s).1, fun cur => ?_⟩
  rw [(scan_bracket_free t h s).2 cur]
  have := max_depth_ge s cur
  omega

theorem scans_as_append (a b : List Char) (k m : Nat) (ha : scans_as a k)
    (hb : scans_as b m) : scans_as (a ++ b) (max k m) := by
  intro s
  constructor
  · intro st
    rw [List.append_assoc, (ha (b ++ s)).1 st, (hb s).1 st]
  · intro cur
    rw [List.append_assoc, (ha (b ++ s)).2 cur, (hb s).2 cur]
    omega

theorem scans_as_brackets (t : List Char) (k : Nat) (h : scans_as t k) :
    scans_as ('[' :: (t ++ [']'])) (1 + k) := by
  intro s
  constructor
  · intro st
    have h1 := (h (']' :: s)).1 ('[' :: st)
    simp only [List.cons_append, List.append_assoc, List.nil_append] at h1 ⊢
    have hopen : ∀ x, well_nested ('[' :: x) st = well_nested x ('[' :: st) := by
      intro x
      cases st <;> simp [well_nested, show is_open '[' = true by decide]
    rw [hopen, h1]
    simp [well_nested, show is_open ']' = false by decide, show is_close ']' = true by decide,
      show closer '[' = ']' by decide]
  · intro cur
    have h1 := (h (']' :: s)).2 (cur + 1)
    have h2 := max_depth_ge s cur
    simp only [List.cons_append, List.append_assoc, List.nil_append] at h1 ⊢
    rw [max_depth]
    simp only [show is_open '[' = true by decide, if_true]
    rw [h1, max_depth]
    simp only [show is_open ']' = false by decide, show is_close ']' = true by decide,
      Bool.false_eq_true, if_false, if_true, Nat.add_sub_cancel]
    omega

theorem scans_as_braces (t : List Char) (k : Nat) (h : scans_as t k) :
    scans_as ('\x7b' :: (t ++ ['\x7d'])) (1 + k) := by
  intro s
  constructor
  · intro st
    have h1 := (h ('\x7d' :: s)).1 ('\x7b' :: st)
    simp only [List.cons_append, List.append_assoc, List.nil_append] at h1 ⊢
    have hopen : ∀ x, well_nested ('\x7b' :: x) st = well_nested x ('\x7b' :: st) := by
      intro x
      cases st <;> simp [well_nested, show is_open '\x7b' = true by decide]
    rw [hopen, h1]
    simp [well_nested, show is_open '\x7d' = false by decide, show is_close '\x7d' = true by decide,
      show closer '\x7b' = '\x7d' by decide]
  · intro cur
    have h1 := (h ('\x7d' :: s)).2 (cur + 1)
    have h2 := max_depth_ge s cur
    simp only [List.cons_append, List.append_assoc, List.nil_append] at h1 ⊢
    rw [max_depth]
    simp only [show is_open '\x7b' = true by decide, if_true]
    rw [h1, max_depth]
    simp only [show is_open '\x7d' = false by decide, show is_close '\x7d' = true by decide,
      Bool.false_eq_true, if_false, if_true, Nat.add_sub_cancel]
    omega

mutual
theorem layout_scans : ∀ v : Value, clean v = true →
    scans_as (layout default_token_set v).data (depth v)
  | .mk caps text range fields, h => by
    rw [clean] at h
    rw [layout, depth]
    by_cases hc : is_col_like caps = true
    · simp only [hc, if_true] at h ⊢
      have hq := joined_scans range h
      have := scans_as_brackets _ _ hq
      simpa [default_token_set, String.data_append] using this
    · have hc' : is_col_like caps = false := by simpa using hc
      by_cases ht : is_tup_like caps = true
      · simp only [hc', ht, if_true, Bool.false_eq_true, if_false] at h ⊢
        have hq := joined_scans fields h
        have := scans_as_braces _ _ hq
        simpa [default_token_set, String.data_append] using this
      · have ht' : is_tup_like caps = false := by simpa using ht
        simp only [hc', ht', Bool.false_eq_true, if_false] at h ⊢
        exact scans_as_free _ h
theorem joined_scans : ∀ l : List Value, clean_elems l = true →
    scans_as (String.intercalate ", " (layout_list default_token_set l)).data (depth_elems l)
  | [], _ => by
    have : scans_as [] 0 := scans_as_free [] rfl
    simpa [layout_list, depth_elems, String.intercalate] using this
  | e :: rest, h => by
    rw [clean_elems, Bool.and_eq_true] at h
    rw [layout_list, depth_elems, data_intercalate_cons]
    exact scans_as_append _ _ _ _ (layout_scans e h.1) (tail_scans rest h.2)
theorem tail_scans : ∀ l : List Value, clean_elems l = true →
    scans_as (sep_tail ", " (layout_list default_token_set l)) (depth_elems l)
  | [], _ => by
    have : scans_as [] 0 := scans_as_free [] rfl
    simpa [layout_list, depth_elems, sep_tail] using this
  | e :: rest, h => by
    rw [clean_elems, Bool.and_eq_true] at h
    rw [layout_list, depth_elems, sep_tail]
    have h1 := scans_as_append _ _ _ _ (layout_scans e h.1) (tail_scans rest h.2)
    have h0 : scans_as (", " : String).data 0 := scans_as_free _ (by decide)
    have h2 := scans_as_append _ _ _ _ h0 h1
    simpa using h2
end

/-- C16. Balanced brackets: with the default tokens, a value that renders and
whose scalar leaves have a default text without `[`, `]` and the two braces is
written as a well-nested bracket text: scanned with a stack, every closing
character matches the most recent open one and nothing is left open, and the
largest number of brackets open at once is the nesting depth of the value. -/
theorem balanced_brackets (v : Value) (haccepted : accepted v = true)
    (hclean : clean v = true) :
    ∃ out, operator_shl "" { t := v } = some out ∧
      well_nested out.data [] = true ∧ max_depth out.data 0 = depth v := by
  refine ⟨layout default_token_set v, ?_, ?_, ?_⟩
  · rw [operator_shl_eq]
    simp [haccepted, pretty_view.tokens, default_token_set]
  · have := ((layout_scans v hclean) []).1 []
    simpa [well_nested] using this
  · have := ((layout_scans v hclean) []).2 0
    simpa [max_depth] using this

/-- Witness for C16: a sequence holding a tuple and a sequence, of depth 2. -/
theorem balanced_brackets_witness :
    ∃ out,
      operator_shl ""
        { t := vector_val [tuple_val [int_val "1", string_val "a"], vector_val []] } = some out ∧
      well_nested out.data [] = true ∧ max_depth out.data 0 = 2 :=
  balanced_brackets (vector_val [tuple_val [int_val "1", string_val "a"], vector_val []])
    (by decide) (by decide)

end rmsn

namespace rmsn

end rmsn

namespace rmsn

/-! ## Pieces written by a separator loop -/

theorem foldl_append_init (l : List String) (acc : String) :
    l.foldl (fun r s => r ++ s) acc = acc ++ l.foldl (fun r s => r ++ s) "" := by
  induction l generalizing acc with
  | nil => simp
  | cons a l ih =>
    simp only [List.foldl_cons]
    rw [ih (acc ++ a), ih ("" ++ a)]
    simp [String.append_assoc]

theorem join_cons_eq (a : String) (l : List String) :
    String.join (a :: l) = a ++ String.join l := by
  simp only [String.join, List.foldl_cons]
  rw [foldl_append_init]
  simp

theorem join_intersperse (d : String) : ∀ rs : List String,
    String.join (rs.intersperse d) = String.intercalate d rs
  | [] => rfl
  | [r] => by simp [List.intersperse, join_cons_eq, String.join, String.intercalate,
      String.intercalate.go]
  | r :: y :: zs => by
    have ih := join_intersperse d (y :: zs)
    show String.join (r :: d :: (y :: zs).intersperse d) = _
    rw [join_cons_eq, join_cons_eq, ih]
    simp only [String.intercalate, intercalate_go_eq, List.foldl_cons]
    rw [foldl_sep_append d zs (r ++ d) y, String.append_assoc]

theorem intersperse_head (d : String) (y : String) (zs : List String) :
    ((y :: zs).intersperse d)[0]? = some y := by
  cases zs <;> rfl

theorem intersperse_pieces (d : String) : ∀ rs : List String,
    (rs.intersperse d).length = rs.length + (rs.length - 1) ∧
      ∀ i : Nat, i < rs.length - 1 →
        (rs.intersperse d)[2 * i]? = rs[i]? ∧
        (rs.intersperse d)[2 * i + 1]? = some d ∧
        (rs.intersperse d)[2 * i + 2]? = rs[i + 1]?
  | [] => ⟨rfl, fun i hi => absurd hi (Nat.not_lt_zero i)⟩
  | [r] => ⟨rfl, fun i hi => absurd hi (Nat.not_lt_zero i)⟩
  | r :: y :: zs => by
    obtain ⟨hlen, hpos⟩ := intersperse_pieces d (y :: zs)
    have hform : (r :: y :: zs).intersperse d = r :: d :: (y :: zs).intersperse d := rfl
    rw [hform]
    constructor
    · simp only [List.length_cons] at hlen ⊢
      omega
    · intro i hi
      cases i with
      | zero =>
        refine ⟨by simp, by simp, ?_⟩
        simpa using intersperse_head d y zs
      | succ j =>
        have hj : j < (y :: zs).length - 1 := by
          simp only [List.length_cons] at hi ⊢
          omega
        obtain ⟨h0, h1, h2⟩ := hpos j hj
        have e : 2 * (j + 1) = 2 * j + 2 := by omega
        rw [e]
        refine ⟨?_, ?_, ?_⟩
        · simpa using h0
        · have e1 : 2 * j + 2 + 1 = (2 * j + 1) + 2 := by omega
          rw [e1]
          simpa using h1
        · simpa using h2

theorem mapM_positions {α β : Type} (f : α → Option β) : ∀ (l : List α) (bs : List β),
    l.mapM f = some bs → bs.length = l.length ∧ ∀ i : Nat, (l[i]?).bind f = bs[i]?
  | [], bs, h => by
    rw [List.mapM_nil] at h
    cases h
    exact ⟨rfl, fun i => rfl⟩
  | a :: l, bs, h => by
    rw [List.mapM_cons] at h
    cases hfa : f a with
    | none => rw [hfa] at h; exact absurd h (by simp)
    | some b =>
      cases hl : l.mapM f with
      | none => rw [hfa, hl] at h; exact absurd h (by simp)
      | some bs1 =>
        rw [hfa, hl] at h
        cases h
        obtain ⟨hlen, hpos⟩ := mapM_positions f l bs1 hl
        refine ⟨by simp [hlen], fun i => ?_⟩
        cases i with
        | zero => simpa using hfa
        | succ j => simpa using hpos j

end rmsn

namespace rmsn

/-- C10. Delimiter count of a collection: the text written for a collection of
N elements is `col_pref`, then the pieces `r1, col_delim, r2, col_delim, ..., rN`
one after the other, then `col_post`, where `ri` is the rendering of the i-th
element in traversal order. The pieces are the N renderings with the delimiter
put between them: there are N + (N - 1) of them, piece `2 i + 1` is the
delimiter and stands between piece `2 i`, the rendering of element `i`, and
piece `2 i + 2`, the rendering of element `i + 1`. So the loop writes the
delimiter exactly N - 1 times, each time between two adjacent renderings, for
every delimiter text. -/
theorem collection_delim_count (pv : pretty_view) (os : String)
    (hcol : is_col_like pv.t.caps = true) :
    operator_shl os pv =
        (pv.t.range.mapM (fun e =>
            if is_col_like e.caps || is_tup_like e.caps then operator_shl "" { pv with t := e }
            else some e.text)).map
          (fun rs =>
            os ++ pv.col_pref ++ String.join (rs.intersperse pv.col_delim) ++ pv.col_post) ∧
      ∀ rs : List String,
        pv.t.range.mapM (fun e =>
            if is_col_like e.caps || is_tup_like e.caps then operator_shl "" { pv with t := e }
            else some e.text) = some rs →
        rs.length = pv.t.range.length ∧
        (∀ i : Nat,
          (pv.t.range[i]?).bind (fun e =>
            if is_col_like e.caps || is_tup_like e.caps then operator_shl "" { pv with t := e }
            else some e.text) = rs[i]?) ∧
        (rs.intersperse pv.col_delim).length = pv.t.range.length + (pv.t.range.length - 1) ∧
        ∀ i : Nat, i < pv.t.range.length - 1 →
          (rs.intersperse pv.col_delim)[2 * i]? = rs[i]? ∧
          (rs.intersperse pv.col_delim)[2 * i + 1]? = some pv.col_delim ∧
          (rs.intersperse pv.col_delim)[2 * i + 2]? = rs[i + 1]? := by
  constructor
  · rw [col_branch_eq pv os hcol]
    simp only [join_intersperse]
  · intro rs hrs
    obtain ⟨hlen, hpos⟩ := mapM_positions _ pv.t.range rs hrs
    obtain ⟨hl, hp⟩ := intersperse_pieces pv.col_delim rs
    rw [hlen] at hl hp
    exact ⟨hlen, hpos, hl, hp⟩

/-- Witness for C10: the sequence of the sequences 1, 2 and 3 with default
tokens is written as `[[1, 2], [3]]`; its pieces are the rendering `[1, 2]`, one
delimiter, the rendering `[3]`. -/
theorem collection_delim_count_witness :
    operator_shl ""
        { t := vector_val [vector_val [int_val "1", int_val "2"], vector_val [int_val "3"]] } =
          some "[[1, 2], [3]]" ∧
      (["[1, 2]", "[3]"].intersperse ", ").length = 2 + (2 - 1) ∧
      (["[1, 2]", "[3]"].intersperse ", ")[1]? = some ", " :=
  ⟨(collection_delim_count
      { t := vector_val [vector_val [int_val "1", int_val "2"], vector_val [int_val "3"]] } ""
      (by decide)).1.trans (by decide),
    ((collection_delim_count
      { t := vector_val [vector_val [int_val "1", int_val "2"], vector_val [int_val "3"]] } ""
      (by decide)).2 ["[1, 2]", "[3]"] (by decide)).2.2.1,
    (((collection_delim_count
      { t := vector_val [vector_val [int_val "1", int_val "2"], vector_val [int_val "3"]] } ""
      (by decide)).2 ["[1, 2]", "[3]"] (by decide)).2.2.2 0 (by decide)).2.1⟩

/-- C11. Delimiter count of a tuple: the text written for a tuple of arity N is
`tup_pref`, then the pieces `r0, tup_delim, r1, tup_delim, ..., r(N-1)` one
after the other, then `tup_post`, where `ri` is the rendering of position `i`.
The pieces are the N renderings in ascending index order with the delimiter put
between them: there are N + (N - 1) of them, piece `2 i + 1` is the delimiter
and stands between piece `2 i`, the rendering of position `i`, and piece
`2 i + 2`, the rendering of position `i + 1`. So the fold writes the delimiter
exactly N - 1 times, each time between two adjacent positions, for every
delimiter text. -/
theorem tuple_delim_count (pv : pretty_view) (os : String)
    (hcol : is_col_like pv.t.caps = false) (htup : is_tup_like pv.t.caps = true)
    (hstr : is_str_like pv.t.caps = false) :
    operator_shl os pv =
        (pv.t.fields.mapM (fun e =>
            if is_col_like e.caps || is_tup_like e.caps then operator_shl "" { pv with t := e }
            else some e.text)).map
          (fun rs =>
            os ++ pv.tup_pref ++ String.join (rs.intersperse pv.tup_delim) ++ pv.tup_post) ∧
      ∀ rs : List String,
        pv.t.fields.mapM (fun e =>
            if is_col_like e.caps || is_tup_like e.caps then operator_shl "" { pv with t := e }
            else some e.text) = some rs →
        rs.length = pv.t.fields.length ∧
        (∀ i : Nat,
          (pv.t.fields[i]?).bind (fun e =>
            if is_col_like e.caps || is_tup_like e.caps then operator_shl "" { pv with t := e }
            else some e.text) = rs[i]?) ∧
        (rs.intersperse pv.tup_delim).length = pv.t.fields.length + (pv.t.fields.length - 1) ∧
        ∀ i : Nat, i < pv.t.fields.length - 1 →
          (rs.intersperse pv.tup_delim)[2 * i]? = rs[i]? ∧
          (rs.intersperse pv.tup_delim)[2 * i + 1]? = some pv.tup_delim ∧
          (rs.intersperse pv.tup_delim)[2 * i + 2]? = rs[i + 1]? := by
  constructor
  · rw [tup_branch_eq pv os hcol htup hstr]
    simp only [join_intersperse]
  · intro rs hrs
    obtain ⟨hlen, hpos⟩ := mapM_positions _ pv.t.fields rs hrs
    obtain ⟨hl, hp⟩ := intersperse_pieces pv.tup_delim rs
    rw [hlen] at hl hp
    exact ⟨hlen, hpos, hl, hp⟩

/-- Witness for C11: the tuple of the tuple 1, 2 and of 3 with the delimiter
` | ` for tuples; its pieces are the rendering of position 0, one delimiter, the
rendering of position 1. -/
theorem tuple_delim_count_witness :
    operator_shl "" { t := nested_tuple_val, tup_delim := " | " } =
        some "\x7b\x7b1 | 2\x7d | 3\x7d" ∧
      (["\x7b1 | 2\x7d", "3"].intersperse " | ").length = 2 + (2 - 1) ∧
      (["\x7b1 | 2\x7d", "3"].intersperse " | ")[1]? = some " | " :=
  ⟨(tuple_delim_count { t := nested_tuple_val, tup_delim := " | " } ""
      (by decide) (by decide) (by decide)).1.trans (by decide),
    ((tuple_delim_count { t := nested_tuple_val, tup_delim := " | " } ""
      (by decide) (by decide) (by decide)).2 ["\x7b1 | 2\x7d", "3"] (by decide)).2.2.1,
    (((tuple_delim_count { t := nested_tuple_val, tup_delim := " | " } ""
      (by decide) (by decide) (by decide)).2 ["\x7b1 | 2\x7d", "3"] (by decide)).2.2.2 0
      (by decide)).2.1⟩

end rmsn
